import Mathlib

/-!
Verification of the bt backup engine's core against its specification.

This development shallowly embeds the Go implementation: SQLite tables
become lists of rows, Go maps become association lists, `time.Time`
becomes integer nanoseconds, and each operation becomes a pure function
from state to state (fallible ones return the unchanged state together
with an error, mirroring methods that return early without mutating, or
`Except` where the transaction rolls back). Every definition is
translated from the corresponding function in the source tree; the file
and function are named in each doc comment.
-/

namespace BT

/-! ## Basic types and string helpers -/

/-- Timestamps (`time.Time` in Go) modelled as integer nanoseconds since
the epoch; `Time.Equal` becomes integer equality. -/
abbrev Time := Int

/-- Nullable timestamp column (`sql.NullTime`). -/
abbrev NullTime := Option Int

/-- String prefix test (Go's `path[:len(dir.Path)] == dir.Path` and the
SQL `LIKE 'p/%'` pattern for wildcard-free `p`). Stated on the character
lists so that concrete instances evaluate; paths here are ASCII, where
character and byte positions agree. -/
def strStartsWith (s p : String) : Bool := p.toList.isPrefixOf s.toList

/-- Character count of a string (`len(s)` in Go; paths are ASCII). -/
def strLen (s : String) : Nat := s.toList.length

/-- Drop the first `n` characters of a string (Go slice `s[n:]`). -/
def strDropChars (s : String) (n : Nat) : String := ⟨s.toList.drop n⟩

/-- Take the first `n` characters of a string (Go slice `s[:n]`). -/
def strTakeChars (s : String) (n : Nat) : String := ⟨s.toList.take n⟩

/-! ## Association-list model of Go maps

A Go `map[string]V` is modelled as a `List (String × V)` in insertion
order: read is the first matching entry, assignment replaces in place or
appends, delete removes the key. -/

/-- Go map read `m[k]` in its comma-ok form. -/
def mapGet {α : Type} (m : List (String × α)) (k : String) : Option α :=
  (m.find? (fun p => p.1 == k)).map (fun p => p.2)

/-- Go map membership `_, ok := m[k]`. -/
def mapHasKey {α : Type} (m : List (String × α)) (k : String) : Bool :=
  m.any (fun p => p.1 == k)

/-- Go map assignment `m[k] = v`. -/
def mapSet {α : Type} (m : List (String × α)) (k : String) (v : α) :
    List (String × α) :=
  if mapHasKey m k then m.map (fun p => if p.1 == k then (k, v) else p)
  else m ++ [(k, v)]

/-- Go map deletion `delete(m, k)`. -/
def mapDelete {α : Type} (m : List (String × α)) (k : String) : List (String × α) :=
  m.filter (fun p => !(p.1 == k))

/-- Go map read with the zero value for missing keys (`m[k]` for an
`int`-valued map). -/
def refGet (m : List (String × Int)) (k : String) : Int := (mapGet m k).getD 0

/-! ## Metadata store data model (internal/database/sqlc, schema.sql) -/

/-- Row of the `file_snapshots` table (`sqlc.FileSnapshot`,
internal/database/sqlc generated model; schema.sql). -/
structure FileSnapshot where
  id : String
  fileId : String
  contentId : String
  createdAt : Time
  size : Int
  permissions : Int
  uid : Int
  gid : Int
  accessedAt : Time
  modifiedAt : Time
  changedAt : Time
  bornAt : NullTime
deriving Repr, DecidableEq

/-- Translation of `snapshotsEqual` (internal/database/sqlite.go): field
by field comparison; `ID` and `CreatedAt` are not compared (and neither
is `FileID`). Note that `AccessedAt` IS compared by the source. -/
def snapshotsEqual (a b : FileSnapshot) : Bool :=
  a.contentId == b.contentId &&
  a.size == b.size &&
  a.permissions == b.permissions &&
  a.uid == b.uid &&
  a.gid == b.gid &&
  a.accessedAt == b.accessedAt &&
  a.modifiedAt == b.modifiedAt &&
  a.changedAt == b.changedAt &&
  a.bornAt == b.bornAt

/-- Row of the `directories` table. -/
structure Directory where
  id : String
  path : String
  createdAt : Time
deriving Repr, DecidableEq

/-- Row of the `files` table. -/
structure File where
  id : String
  name : String
  directoryId : String
  currentSnapshotId : Option String
  deleted : Bool
deriving Repr, DecidableEq

/-- Row of the `contents` table. -/
structure Content where
  id : String
  createdAt : Time
  encryptedContentId : Option String
deriving Repr, DecidableEq

/-- The relational state of the metadata store: one list of rows per
table of schema.sql. Row order models insertion order. -/
structure DBState where
  directories : List Directory
  files : List File
  snapshots : List FileSnapshot
  contents : List Content
deriving Repr, DecidableEq

/-- Query `GetFileByDirectoryAndName` (queries.sql): `SELECT * FROM files
WHERE directory_id = ? AND name = ? LIMIT 1`. -/
def getFileByDirectoryAndName (st : DBState) (directoryId name : String) : Option File :=
  st.files.find? (fun f => f.directoryId == directoryId && f.name == name)

/-- Query `GetContentByID`: `SELECT * FROM contents WHERE id = ? LIMIT 1`. -/
def getContentByID (st : DBState) (id : String) : Option Content :=
  st.contents.find? (fun c => c.id == id)

/-- Query `GetFileSnapshotByID`: `SELECT * FROM file_snapshots WHERE id = ? LIMIT 1`. -/
def getFileSnapshotByID (st : DBState) (id : String) : Option FileSnapshot :=
  st.snapshots.find? (fun s => s.id == id)

/-- Query `GetFileSnapshotsByFileID`: `SELECT * FROM file_snapshots WHERE
file_id = ? ORDER BY created_at`. Insertion order coincides with
`created_at` order for rows produced by the commit path, and only the
number of snapshots matters below. -/
def getFileSnapshotsByFileID (st : DBState) (fileId : String) : List FileSnapshot :=
  st.snapshots.filter (fun s => s.fileId == fileId)

/-- Number of `file_snapshots` rows of a file
(`FindFileSnapshotsForFile(file).length`). -/
def fileSnapshotCount (st : DBState) (fileId : String) : Nat :=
  (getFileSnapshotsByFileID st fileId).length

/-- The `current_snapshot_id` column of the file at (directory, name). -/
def currentSnapshotOf (st : DBState) (directoryId name : String) : Option String :=
  (getFileByDirectoryAndName st directoryId name).bind File.currentSnapshotId

/-- Errors of the atomic commit; raising one rolls the transaction back,
so the caller keeps the pre-state. -/
inductive DBError
  | loadingCurrentSnapshot
deriving Repr, DecidableEq

/-- Step 4 of `CreateFileSnapshotAndContent` (internal/database/sqlite.go):
`snapshot.FileID = file.ID`, `InsertFileSnapshot`, then
`UpdateFileCurrentSnapshot` pointing the file at the created row. -/
def insertSnapshotAndPoint (st : DBState) (file : File) (snapshot : FileSnapshot) :
    Except DBError DBState :=
  let created : FileSnapshot := { snapshot with fileId := file.id }
  let st3 : DBState := { st with snapshots := st.snapshots ++ [created] }
  .ok { st3 with
        files := st3.files.map (fun f =>
          if f.id == file.id then { f with currentSnapshotId := some created.id } else f) }

/-- Translation of `CreateFileSnapshotAndContent`
(internal/database/sqlite.go, one transaction):
1. find the file by (directoryId, relativePath) or insert it
   (`newFileId` stands for the `uuid.New()` drawn there);
2. insert the content row if `snapshot.contentId` is unknown (`now`
   stands for `time.Now()`; `encrypted_content_id` is left NULL);
3. if the file has a current snapshot equal (per `snapshotsEqual`) to the
   incoming one, commit without inserting anything further;
4. otherwise insert the snapshot and repoint `current_snapshot_id`. -/
def createFileSnapshotAndContent (st : DBState) (newFileId : String) (now : Time)
    (directoryId relativePath : String) (snapshot : FileSnapshot) :
    Except DBError DBState :=
  let fileAndSt :=
    match getFileByDirectoryAndName st directoryId relativePath with
    | some f => (f, st)
    | none =>
        let f : File :=
          { id := newFileId, name := relativePath, directoryId := directoryId,
            currentSnapshotId := none, deleted := false }
        (f, { st with files := st.files ++ [f] })
  let file := fileAndSt.1
  let st1 := fileAndSt.2
  let st2 :=
    match getContentByID st1 snapshot.contentId with
    | some _ => st1
    | none =>
        { st1 with contents := st1.contents ++
            [{ id := snapshot.contentId, createdAt := now, encryptedContentId := none }] }
  match file.currentSnapshotId with
  | some sid =>
      match getFileSnapshotByID st2 sid with
      | none => .error .loadingCurrentSnapshot
      | some current =>
          if snapshotsEqual current snapshot then .ok st2
          else insertSnapshotAndPoint st2 file snapshot
  | none => insertSnapshotAndPoint st2 file snapshot

/-! ## Directory creation and lookup (internal/database/sqlite.go) -/

/-- Model of `filepath.Rel(base, target)` for the only case
`CreateDirectory` uses it in: `target` begins with `base ++ "/"` and both
paths are clean absolute paths, where `Rel` returns the remainder after
the slash. -/
def goRel (base target : String) : String := strDropChars target (strLen base + 1)

/-- Model of `filepath.Join(a, b)` for clean, nonempty components. -/
def goJoin (a b : String) : String := a ++ "/" ++ b

/-- The SQL pattern `path || '/%'` of `GetDirectoriesByPathPrefix` as used
by `CreateDirectory`: the directory's path starts with `path ++ "/"`. -/
def isUnderPath (path : String) (d : Directory) : Bool :=
  strStartsWith d.path (path ++ "/")

/-- Translation of `CreateDirectory` (internal/database/sqlite.go, one
transaction): find the child directories under `path`, insert the new
directory row (`newDirId` stands for `uuid.New()`, `now` for
`time.Now()`), move every file of each child to the new directory with
the child's relative path prepended to its name
(`UpdateFileDirectoryAndName`), and delete each child row
(`DeleteDirectoryByID`). Each file belongs to exactly one child, so the
per-child loops over `GetFilesByDirectoryID` become one map over the
files table. -/
def createDirectory (st : DBState) (newDirId : String) (now : Time) (path : String) :
    DBState :=
  let childDirs := st.directories.filter (isUnderPath path)
  let newDir : Directory := { id := newDirId, path := path, createdAt := now }
  let dirs1 := st.directories ++ [newDir]
  let movedFiles := st.files.map (fun f =>
    match childDirs.find? (fun d => d.id == f.directoryId) with
    | some child => { f with directoryId := newDirId,
                             name := goJoin (goRel path child.path) f.name }
    | none => f)
  { st with
    directories := dirs1.filter (fun d => !(childDirs.any (fun c => c.id == d.id))),
    files := movedFiles }

/-- The loop-body condition of `SearchDirectoryForPath`
(internal/database/sqlite.go): either `path == dir.Path` (exact match) or
`len(path) > len(dir.Path) && path[:len(dir.Path)] == dir.Path &&
path[len(dir.Path)] == '/'`, which is exactly "`path` starts with
`dir.Path ++ "/"`". -/
def dirMatchesPath (path : String) (d : Directory) : Bool :=
  path == d.path || strStartsWith path (d.path ++ "/")

/-- The loop body of `SearchDirectoryForPath`: keep the best (shortest)
match; `bestMatch == nil || len(dir.Path) < len(bestMatch.Path)` takes the
new directory. -/
def searchStep (path : String) (bestMatch : Option Directory) (d : Directory) :
    Option Directory :=
  if dirMatchesPath path d then
    match bestMatch with
    | none => some d
    | some b => if strLen d.path < strLen b.path then some d else bestMatch
  else bestMatch

/-- Translation of `SearchDirectoryForPath` (internal/database/sqlite.go):
fetch all directories (`GetDirectoriesByPathPrefix` with pattern `"/%"`,
i.e. absolute paths) and fold the shortest-prefix loop over them. -/
def searchDirectoryForPath (st : DBState) (path : String) : Option Directory :=
  (st.directories.filter (fun d => strStartsWith d.path "/")).foldl (searchStep path) none

/-! ## Staging area (internal/staging) -/

/-- The parts of `fs.FileInfo` the staging protocol reads: `Size()`,
`Mode()` and `ModTime()`. -/
structure FileInfo where
  size : Int
  mode : Nat
  modTime : Time
deriving Repr, DecidableEq

/-- `bt.StatData` (internal/fs): uid, gid, atime, ctime and the optional
birth time extracted from the platform stat. -/
structure StatData where
  uid : Int
  gid : Int
  atime : Time
  ctime : Time
  birthTime : NullTime
deriving Repr, DecidableEq

/-- Errors surfaced by the staging area. -/
inductive StagingError
  | fileChanged
  | stagingFull
  | contentNotFound
  | callbackFailed
deriving Repr, DecidableEq

/-- Translation of `validateStatUnchanged` (internal/staging/memory.go):
size, mode, mtime, ctime, uid and gid must agree; access time is
deliberately not compared ("We ignore access time as it may change from
our read"). Returns `true` when nothing changed. -/
def validateStatUnchanged (info1 info2 : FileInfo) (stat1 stat2 : StatData) : Bool :=
  info1.size == info2.size &&
  info1.mode == info2.mode &&
  info1.modTime == info2.modTime &&
  stat1.ctime == stat2.ctime &&
  stat1.uid == stat2.uid &&
  stat1.gid == stat2.gid

/-- The snapshot a `Stage` call embeds in the queued operation, built from
the pre-read stat (`info1`, `stat1`); `Mode().Perm()` keeps the low nine
permission bits, and the identity fields stay at their zero values. -/
def buildStagedSnapshot (checksum : String) (info1 : FileInfo) (stat1 : StatData) :
    FileSnapshot :=
  { id := "", fileId := "",
    contentId := checksum,
    createdAt := 0,
    size := info1.size,
    permissions := Int.ofNat (info1.mode % 512),
    uid := stat1.uid,
    gid := stat1.gid,
    accessedAt := stat1.atime,
    modifiedAt := info1.modTime,
    changedAt := stat1.ctime,
    bornAt := stat1.birthTime }

/-- `stagedOperation` (internal/staging/operation.go). -/
structure StagedOperation where
  directoryId : String
  relativePath : String
  snapshot : FileSnapshot
deriving Repr, DecidableEq

/-- The state of `MemoryStagingArea` (internal/staging/memory.go). -/
structure MemStagingState where
  maxSize : Int
  currentSize : Int
  content : List (String × List Nat)
  queue : List StagedOperation
  refCount : List (String × Int)
deriving Repr, DecidableEq

/-- `NewMemoryStagingArea`: empty maps, empty queue, zero size. -/
def initMemStaging (maxSize : Int) : MemStagingState :=
  { maxSize := maxSize, currentSize := 0, content := [], queue := [], refCount := [] }

/-- Step 5 of `MemoryStagingArea.Stage`: append the operation to the
queue and increment the checksum's reference count. -/
def memAppendOp (st : MemStagingState) (directory : Directory) (relativePath : String)
    (info1 : FileInfo) (stat1 : StatData) (checksum : String) : MemStagingState :=
  { st with
    queue := st.queue ++
      [{ directoryId := directory.id, relativePath := relativePath,
         snapshot := buildStagedSnapshot checksum info1 stat1 }],
    refCount := mapSet st.refCount checksum (refGet st.refCount checksum + 1) }

/-- Translation of `MemoryStagingArea.Stage` (internal/staging/memory.go).
The source stats (`info1`, `stat1`), reads the bytes while hashing
(`readAndHash` yields `content` and its SHA-256 `checksum`; the hash is a
parameter here, the accounting below is independent of its value),
re-stats (`info2`, `stat2`) and validates; then under the mutex it
deduplicates the content against the byte store, enforces the size
budget, and appends the queue entry. A returned error means the method
aborted with the state unchanged. -/
def memStage (st : MemStagingState) (directory : Directory) (relativePath : String)
    (info1 : FileInfo) (stat1 : StatData) (content : List Nat) (checksum : String)
    (info2 : FileInfo) (stat2 : StatData) : MemStagingState × Option StagingError :=
  if validateStatUnchanged info1 info2 stat1 stat2 = false then
    (st, some .fileChanged)
  else if mapHasKey st.content checksum then
    (memAppendOp st directory relativePath info1 stat1 checksum, none)
  else if st.currentSize + (content.length : Int) > st.maxSize then
    (st, some .stagingFull)
  else
    (memAppendOp
      { st with content := st.content ++ [(checksum, content)],
                currentSize := st.currentSize + (content.length : Int) }
      directory relativePath info1 stat1 checksum, none)

/-- Translation of `MemoryStagingArea.ProcessNext`
(internal/staging/memory.go). `callbackOk` stands for the outcome of the
backup callback (`fn`): on failure the queue entry is retained and the
error propagated; on success the head is removed (after re-checking it is
still the processed operation), the refcount decremented, and the bytes
deleted when the count reaches zero. An empty queue is a successful
no-op. -/
def memProcessNext (st : MemStagingState) (callbackOk : Bool) :
    MemStagingState × Option StagingError :=
  match st.queue with
  | [] => (st, none)
  | op :: _ =>
    match mapGet st.content op.snapshot.contentId with
    | none => (st, some .contentNotFound)
    | some _ =>
      if callbackOk = false then (st, some .callbackFailed)
      else
        let checksum := op.snapshot.contentId
        let queue1 :=
          match st.queue with
          | q :: rest =>
              if q.directoryId == op.directoryId && q.relativePath == op.relativePath &&
                 q.snapshot.contentId == op.snapshot.contentId then rest else st.queue
          | [] => st.queue
        let refCount1 := mapSet st.refCount checksum (refGet st.refCount checksum - 1)
        if refGet refCount1 checksum ≤ 0 then
          match mapGet st.content checksum with
          | some c =>
              ({ st with queue := queue1,
                         refCount := mapDelete refCount1 checksum,
                         content := mapDelete st.content checksum,
                         currentSize := st.currentSize - (c.length : Int) }, none)
          | none =>
              ({ st with queue := queue1, refCount := mapDelete refCount1 checksum }, none)
        else
          ({ st with queue := queue1, refCount := refCount1 }, none)

/-- One interaction with the in-memory staging area: a `Stage` call (with
all the data the filesystem hands it) or a `ProcessNext` call (with the
callback's outcome). -/
inductive StagingEvent
  | stage (directory : Directory) (relativePath : String) (info1 : FileInfo)
      (stat1 : StatData) (content : List Nat) (checksum : String)
      (info2 : FileInfo) (stat2 : StatData)
  | process (callbackOk : Bool)

/-- The state reached after one staging-area call (failed calls leave the
state as returned by the method, which for the memory implementation is
the unchanged state). -/
def stagingStep (st : MemStagingState) (e : StagingEvent) : MemStagingState :=
  match e with
  | .stage d r i1 s1 c ck i2 s2 => (memStage st d r i1 s1 c ck i2 s2).1
  | .process ok => (memProcessNext st ok).1

/-- The staging-area state after a sequence of calls starting from a fresh
area. -/
def runStaging (maxSize : Int) (events : List StagingEvent) : MemStagingState :=
  events.foldl stagingStep (initMemStaging maxSize)

/-- Number of queue entries whose snapshot references a checksum. -/
def countRefs (queue : List StagedOperation) (checksum : String) : Nat :=
  (queue.filter (fun op => op.snapshot.contentId == checksum)).length

/-- Total bytes held by a content map. -/
def contentSizeSum (content : List (String × List Nat)) : Int :=
  (content.map (fun p => (p.2.length : Int))).sum

/-- The accounting invariant of the in-memory staging area: refcounts
equal queue reference counts, every queue entry's bytes are present,
every stored checksum and every refcount key is still referenced, and
the tracked size equals the bytes stored. -/
structure MemStagingInv (st : MemStagingState) : Prop where
  refAccurate : ∀ c, refGet st.refCount c = (countRefs st.queue c : Int)
  refKeysLive : ∀ p ∈ st.refCount, 0 < countRefs st.queue p.1
  contentPresent : ∀ op ∈ st.queue, mapHasKey st.content op.snapshot.contentId = true
  contentKeysLive : ∀ p ∈ st.content, 0 < countRefs st.queue p.1
  sizeAccurate : st.currentSize = contentSizeSum st.content
  contentKeysNodup : (st.content.map Prod.fst).Nodup
  refKeysNodup : (st.refCount.map Prod.fst).Nodup

/-- The state of `FileSystemStagingArea` (internal/staging/filesystem.go):
the per-checksum files of `content/` and the operations of `queue.json`.
`maxSize` is the configured budget. -/
structure FsStagingState where
  maxSize : Int
  contentDir : List (String × List Nat)
  queue : List StagedOperation
deriving Repr, DecidableEq

/-- `FileSystemStagingArea.Size`: total size of the files in the content
directory. -/
def fsSize (st : FsStagingState) : Int := contentSizeSum st.contentDir

/-- Translation of `FileSystemStagingArea.Stage`
(internal/staging/filesystem.go). `copyToStaging` writes the bytes to
`content/<checksum>` unless that file already exists (dedup); then the
re-stat validation and the size check each call `removeContent(checksum)`
on failure — unconditionally, whether or not this call created the file.
The queued snapshot's size is the byte count copied. -/
def fsStage (st : FsStagingState) (directory : Directory) (relativePath : String)
    (info1 : FileInfo) (stat1 : StatData) (content : List Nat) (checksum : String)
    (info2 : FileInfo) (stat2 : StatData) : FsStagingState × Option StagingError :=
  let st1 := if mapHasKey st.contentDir checksum then st
             else { st with contentDir := st.contentDir ++ [(checksum, content)] }
  if validateStatUnchanged info1 info2 stat1 stat2 = false then
    ({ st1 with contentDir := mapDelete st1.contentDir checksum }, some .fileChanged)
  else if fsSize st1 > st.maxSize then
    ({ st1 with contentDir := mapDelete st1.contentDir checksum }, some .stagingFull)
  else
    ({ st1 with queue := st1.queue ++
        [{ directoryId := directory.id, relativePath := relativePath,
           snapshot := { buildStagedSnapshot checksum info1 stat1 with
                         size := (content.length : Int) } }] }, none)

/-! ## Vault (internal/vault) -/

/-- The state of `MemoryVault` (internal/vault/memory.go). -/
structure MemVault where
  content : List (String × List Nat)
  metadata : List (String × List Nat)
  metadataVersion : List (String × Int)
deriving Repr, DecidableEq

/-- Vault errors. -/
inductive VaultError
  | sizeMismatch
  | notFound
deriving Repr, DecidableEq

/-- Translation of `MemoryVault.PutContent` (internal/vault/memory.go):
read everything, fail on a size mismatch, else assign under the checksum
("Idempotent: storing the same checksum multiple times is safe"). -/
def memPutContent (v : MemVault) (checksum : String) (data : List Nat) (size : Int) :
    MemVault × Option VaultError :=
  if (data.length : Int) != size then (v, some .sizeMismatch)
  else ({ v with content := mapSet v.content checksum data }, none)

/-- Translation of `FileSystemVault.PutContent`
(internal/vault/filesystem.go) acting on the map of files under
`content/`: if the checksum file exists, drain the reader, verify the
byte count and return (idempotent skip); otherwise `writeFile` copies to
a temp file, verifies the byte count and atomically renames, so a failed
write leaves no trace. -/
def fsvPutContent (contentDir : List (String × List Nat)) (checksum : String)
    (data : List Nat) (size : Int) : List (String × List Nat) × Option VaultError :=
  if mapHasKey contentDir checksum then
    if (data.length : Int) != size then (contentDir, some .sizeMismatch)
    else (contentDir, none)
  else
    if (data.length : Int) != size then (contentDir, some .sizeMismatch)
    else (mapSet contentDir checksum data, none)

/-- Translation of `MemoryVault.GetMetadataVersion`: a map read returning
the zero value 0 for a host with no stored metadata (the filesystem vault
returns 0 for a missing version file the same way). -/
def memGetMetadataVersion (v : MemVault) (hostId : String) : Int :=
  (mapGet v.metadataVersion hostId).getD 0

/-! ## Operation envelope (internal/app/app.go) -/

/-- Query `GetMaxBackupOperationID`: `SELECT CAST(COALESCE(MAX(id), 0) AS
INTEGER) FROM backup_operations`, over the list of operation ids. -/
def maxBackupOperationId (operationIds : List Int) : Int :=
  operationIds.foldl max 0

/-- Envelope-level abort conditions. -/
inductive AppError
  | localBehind
deriving Repr, DecidableEq

/-- The version gate of `NewBTApp` (internal/app/app.go): `if
remoteVersion > localMax` the envelope aborts ("local database is behind
remote: restore from vault or re-initialize"), else construction
proceeds. -/
def envelopeVersionCheck (remoteVersion localMax : Int) : Except AppError Unit :=
  if remoteVersion > localMax then .error .localBehind else .ok ()

/-- Opening the operation envelope against a vault: `NewBTApp` reads the
remote `"db"` metadata version for the host and the local max backup
operation id, then applies the version gate. (The earlier steps —
config, migrations — are orthogonal to the gate and assumed to have
succeeded.) -/
def openEnvelope (v : MemVault) (hostId : String) (operationIds : List Int) :
    Except AppError Unit :=
  envelopeVersionCheck (memGetMetadataVersion v hostId) (maxBackupOperationId operationIds)

/-! ## Restore (internal/bt/restore.go, current version with decryption) -/

/-- Restore errors. -/
inductive RestoreError
  | outputExists
  | contentRecordMissing
  | needsDecryption
  | vaultNotFound
  | decryptFailed
deriving Repr, DecidableEq

/-- `filepath.Base` for clean paths: the segment after the last slash. -/
def baseOf (s : String) : String :=
  ⟨(s.toList.reverse.takeWhile (fun c => c ≠ '/')).reverse⟩

/-- `filepath.Dir` for clean paths that contain a slash: everything before
the last slash. -/
def dirOf (s : String) : String :=
  ⟨((s.toList.reverse.dropWhile (fun c => c ≠ '/')).drop 1).reverse⟩

/-- Translation of `buildRestorePath` (internal/bt/restore.go): the output
is `{dir}/{basename}.{contentId[:12]}.btrestored`; the source splits the
basename into name and extension and immediately recombines them. -/
def buildRestorePath (dirPath relativePath contentId : String) : String :=
  let fullPath := dirPath ++ "/" ++ relativePath
  let dir := dirOf fullPath
  let base := baseOf fullPath
  let shortChecksum := if strLen contentId > 12 then strTakeChars contentId 12 else contentId
  dir ++ "/" ++ (base ++ "." ++ shortChecksum ++ ".btrestored")

/-- Translation of `restoreOneFile` (internal/bt/restore.go, the current
version that handles encrypted content). The local filesystem is a map
from paths to bytes. The steps: compute the output path; fail if it
exists (never overwrite); create the file; look up the Content row; for a
virtual Content decrypt the ciphertext fetched under
`encryptedContentId` (failing with `needsDecryption` when no decryption
context was supplied); for a real Content stream the bytes directly.
Every failure after the create removes the partially written file
(`os.Remove(outPath)`). `decrypt` abstracts `DecryptionContext.Decrypt`
as a function that may fail. -/
def restoreOneFile (disk : List (String × List Nat)) (db : DBState) (vault : MemVault)
    (decryptCtx : Option (List Nat → Option (List Nat)))
    (dir : Directory) (relativePath : String) (snapshot : FileSnapshot) :
    List (String × List Nat) × Option RestoreError :=
  let outPath := buildRestorePath dir.path relativePath snapshot.contentId
  if mapHasKey disk outPath then (disk, some .outputExists)
  else
    let disk1 := mapSet disk outPath []
    match getContentByID db snapshot.contentId with
    | none => (mapDelete disk1 outPath, some .contentRecordMissing)
    | some content =>
      match content.encryptedContentId with
      | some encryptedId =>
          match decryptCtx with
          | none => (mapDelete disk1 outPath, some .needsDecryption)
          | some decrypt =>
              match mapGet vault.content encryptedId with
              | none => (mapDelete disk1 outPath, some .vaultNotFound)
              | some cipher =>
                  match decrypt cipher with
                  | none => (mapDelete disk1 outPath, some .decryptFailed)
                  | some plain => (mapSet disk1 outPath plain, none)
      | none =>
          match mapGet vault.content snapshot.contentId with
          | none => (mapDelete disk1 outPath, some .vaultNotFound)
          | some data => (mapSet disk1 outPath data, none)

/-! ## Concrete fixtures used by witnesses and counterexamples -/

/-- Empty metadata store, used to instantiate the idempotence theorem. -/
def emptyDBState : DBState :=
  { directories := [], files := [], snapshots := [], contents := [] }

/-- A sample snapshot for witnesses. -/
def sampleSnap : FileSnapshot :=
  { id := "snapW", fileId := "", contentId := "cW", createdAt := 4,
    size := 7, permissions := 420, uid := 1000, gid := 1000,
    accessedAt := 1, modifiedAt := 2, changedAt := 3, bornAt := some 0 }

/-- Current snapshot of the atime fixture file. -/
def atimeSnap1 : FileSnapshot :=
  { id := "snap1", fileId := "file1", contentId := "c1", createdAt := 100,
    size := 5, permissions := 420, uid := 1000, gid := 1000,
    accessedAt := 10, modifiedAt := 20, changedAt := 30, bornAt := none }

/-- Incoming snapshot: identical to `atimeSnap1` in every relevant field
except `accessedAt` (the file was merely read since the last backup). -/
def atimeSnap2 : FileSnapshot :=
  { atimeSnap1 with id := "snap2", createdAt := 200, accessedAt := 11 }

/-- Metadata store before the call: the file is backed up once and its
`current_snapshot_id` points at `atimeSnap1`. -/
def atimeState : DBState :=
  { directories := [{ id := "dir1", path := "/d", createdAt := 0 }],
    files := [{ id := "file1", name := "f.txt", directoryId := "dir1",
                currentSnapshotId := some "snap1", deleted := false }],
    snapshots := [atimeSnap1],
    contents := [{ id := "c1", createdAt := 100, encryptedContentId := none }] }

/-- A sample pre-read stat pair for staging fixtures. -/
def sampleInfo : FileInfo := { size := 4, mode := 420, modTime := 50 }

/-- A sample extracted stat for staging fixtures. -/
def sampleStat : StatData :=
  { uid := 1000, gid := 1000, atime := 60, ctime := 70, birthTime := none }

/-- Filesystem staging area holding content `"sh"` referenced by one
queued operation: the dedup-then-fail scenario of the re-stat check. -/
def fsSharedState : FsStagingState :=
  { maxSize := 100,
    contentDir := [("sh", [1, 2, 3, 4])],
    queue := [{ directoryId := "dirA", relativePath := "a.txt",
                snapshot := { buildStagedSnapshot "sh" sampleInfo sampleStat with
                              size := 4 } }] }

/-- An empty filesystem staging area with a small budget. -/
def fsEmptyStaging (maxSize : Int) : FsStagingState :=
  { maxSize := maxSize, contentDir := [], queue := [] }

/-- A short concrete interaction: stage one file, drain it successfully. -/
def stagingWitnessEvents : List StagingEvent :=
  [.stage { id := "dirA", path := "/d", createdAt := 0 } "a.txt"
      sampleInfo sampleStat [7, 7] "ck1" sampleInfo sampleStat,
   .process true]

/-! ## Theorems -/

/-- Replacing the `fileId` of a snapshot does not affect `snapshotsEqual`:
the comparison never reads that field. -/
theorem snapshotsEqual_setFileId (a b : FileSnapshot) (x : String) :
    snapshotsEqual { a with fileId := x } b = snapshotsEqual a b := rfl

/-- Auxiliary: `find?` stays `none` under a map that preserves the predicate. -/
theorem find?_map_none {α : Type} (l : List α) (g : α → α) (p : α → Bool)
    (h : ∀ x, p (g x) = p x) (hn : l.find? p = none) : (l.map g).find? p = none := by
  rw [List.find?_eq_none] at hn ⊢
  intro x hx
  obtain ⟨y, hy, rfl⟩ := List.mem_map.mp hx
  rw [h]
  exact hn y hy

/-- C2: committing the same (directory, relativePath, snapshot fields)
twice in immediate succession equals committing once. The second call
returns the state of the first call unchanged: no new `FileSnapshot` row,
`current_snapshot_id` untouched, and the file has exactly one snapshot.
`snap2` may differ from `snap` in the identity fields (`id`, `createdAt`)
that a fresh call would regenerate; `snapshotsEqual snap snap2` states
that all compared fields coincide. The freshness hypotheses say the
(directory, path) pair is not yet in the store and the generated ids do
not collide with existing rows. -/
theorem createFileSnapshotAndContent_idempotent
    (st : DBState) (directoryId relativePath : String)
    (snap snap2 : FileSnapshot) (fid fid2 : String) (now now2 : Time)
    (hfresh : getFileByDirectoryAndName st directoryId relativePath = none)
    (hnosnap : ∀ s ∈ st.snapshots, s.fileId ≠ fid)
    (hnoid : ∀ s ∈ st.snapshots, s.id ≠ snap.id)
    (heq : snapshotsEqual snap snap2 = true) :
    ∃ st1, createFileSnapshotAndContent st fid now directoryId relativePath snap = .ok st1 ∧
      createFileSnapshotAndContent st1 fid2 now2 directoryId relativePath snap2 = .ok st1 ∧
      fileSnapshotCount st1 fid = 1 := by
  have hcontentEq : snap2.contentId = snap.contentId := by
    have := heq
    unfold snapshotsEqual at this
    simp only [Bool.and_eq_true, beq_iff_eq] at this
    exact this.1.1.1.1.1.1.1.1.symm
  set freshFile : File :=
    { id := fid, name := relativePath, directoryId := directoryId,
      currentSnapshotId := none, deleted := false } with hfreshFile
  set created : FileSnapshot := { snap with fileId := fid } with hcreated
  set upd : File → File := (fun f =>
      if f.id == fid then { f with currentSnapshotId := some created.id } else f) with hupd
  set contentsAfter : List Content :=
    (match getContentByID st snap.contentId with
     | some _ => st.contents
     | none => st.contents ++
         [{ id := snap.contentId, createdAt := now, encryptedContentId := none }]) with hca
  set st1 : DBState :=
    { directories := st.directories,
      files := (st.files ++ [freshFile]).map upd,
      snapshots := st.snapshots ++ [created],
      contents := contentsAfter } with hst1
  refine ⟨st1, ?_, ?_, ?_⟩
  · unfold createFileSnapshotAndContent
    rw [hfresh]
    simp only []
    have hgc : getContentByID { st with files := st.files ++ [freshFile] } snap.contentId
        = getContentByID st snap.contentId := rfl
    cases hc : getContentByID st snap.contentId with
    | some c =>
        simp only [hgc, hc]
        unfold insertSnapshotAndPoint
        simp only [hst1, hca, hc]
    | none =>
        simp only [hgc, hc]
        unfold insertSnapshotAndPoint
        simp only [hst1, hca, hc]
  · have hpupd : ∀ f : File,
        ((upd f).directoryId == directoryId && (upd f).name == relativePath)
        = (f.directoryId == directoryId && f.name == relativePath) := by
      intro f
      simp only [hupd]
      split <;> rfl
    have hfind1 : getFileByDirectoryAndName st1 directoryId relativePath
        = some (upd freshFile) := by
      unfold getFileByDirectoryAndName
      simp only [hst1]
      rw [List.map_append, List.find?_append]
      rw [find?_map_none st.files upd _ hpupd hfresh]
      simp only [Option.none_or, List.map_cons, List.map_nil]
      rw [List.find?_cons_of_pos]
      rw [hpupd freshFile]
      simp [hfreshFile]
    have hupdFresh : upd freshFile =
        { id := fid, name := relativePath, directoryId := directoryId,
          currentSnapshotId := some created.id, deleted := false } := by
      simp [hupd, hfreshFile]
    have hgc2 : (getContentByID st1 snap2.contentId).isSome = true := by
      unfold getContentByID
      simp only [hst1, hca, hcontentEq]
      cases hc : getContentByID st snap.contentId with
      | some c =>
          simp only [hc]
          unfold getContentByID at hc
          rw [hc]
          rfl
      | none =>
          simp only [hc]
          unfold getContentByID at hc
          rw [List.find?_append, hc]
          simp
    have hsnapFind : getFileSnapshotByID st1 created.id = some created := by
      unfold getFileSnapshotByID
      simp only [hst1]
      rw [List.find?_append]
      have : st.snapshots.find? (fun s => s.id == created.id) = none := by
        rw [List.find?_eq_none]
        intro s hs
        simp only [beq_iff_eq]
        have : created.id = snap.id := rfl
        rw [this]
        exact hnoid s hs
      rw [this]
      simp
    unfold createFileSnapshotAndContent
    rw [hfind1]
    simp only []
    rw [hupdFresh]
    simp only []
    obtain ⟨c2, hc2⟩ := Option.isSome_iff_exists.mp hgc2
    rw [hc2]
    simp only []
    rw [hsnapFind]
    have hce : snapshotsEqual created snap2 = true := by
      rw [hcreated, snapshotsEqual_setFileId]
      exact heq
    simp [hce]
  · unfold fileSnapshotCount getFileSnapshotsByFileID
    simp only [hst1]
    rw [List.filter_append]
    have h0 : st.snapshots.filter (fun s => s.fileId == fid) = [] := by
      rw [List.filter_eq_nil_iff]
      intro s hs
      simp only [beq_iff_eq]
      exact hnosnap s hs
    rw [h0]
    have : created.fileId = fid := rfl
    simp [this]

/-- Witness for C2: the idempotence theorem applied at a concrete fresh
file in the empty store. -/
theorem createFileSnapshotAndContent_idempotent_witness :
    ∃ st1,
      createFileSnapshotAndContent emptyDBState "fileX" 5 "dirA" "a.txt" sampleSnap = .ok st1 ∧
      createFileSnapshotAndContent st1 "fileY" 6 "dirA" "a.txt" sampleSnap = .ok st1 ∧
      fileSnapshotCount st1 "fileX" = 1 :=
  createFileSnapshotAndContent_idempotent emptyDBState "dirA" "a.txt"
    sampleSnap sampleSnap "fileX" "fileY" 5 6
    (by decide)
    (fun s hs => absurd hs (List.not_mem_nil s))
    (fun s hs => absurd hs (List.not_mem_nil s))
    (by decide)

/-- C1: the claim says the commit treats a snapshot that differs from the
current one only in `atime` as unchanged (no-op). The code does not:
`snapshotsEqual` compares `AccessedAt`, so this call inserts a second
`FileSnapshot` and repoints `current_snapshot_id` at it. (TODO.md of the
repository records this as a known defect of `snapshotsEqual`.) -/
theorem createFileSnapshotAndContent_atime_not_noop :
    snapshotsEqual atimeSnap1 atimeSnap2 = false ∧
    (createFileSnapshotAndContent atimeState "unused-id" 300 "dir1" "f.txt"
        atimeSnap2).toOption.map
      (fun st' => (fileSnapshotCount st' "file1", currentSnapshotOf st' "dir1" "f.txt"))
      = some (2, some "snap2") := by
  constructor
  · decide
  · decide

/-- Auxiliary: in a list whose `g`-images are distinct, searching for the
image of a member finds that member. -/
theorem find?_eq_of_nodup_map {α β : Type} [BEq β] [LawfulBEq β]
    (l : List α) (g : α → β) (a : α) (hnd : (l.map g).Nodup) (ha : a ∈ l) :
    l.find? (fun x => g x == g a) = some a := by
  induction l with
  | nil => cases ha
  | cons b t ih =>
      rw [List.map_cons, List.nodup_cons] at hnd
      rcases List.mem_cons.mp ha with rfl | hat
      · exact List.find?_cons_of_pos _ (beq_self_eq_true _)
      · have hne : (g b == g a) = false := by
          rw [beq_eq_false_iff_ne]
          intro hgba
          exact hnd.1 (hgba ▸ List.mem_map_of_mem g hat)
        rw [List.find?_cons_of_neg _ (by rw [hne]; exact Bool.false_ne_true)]
        exact ih hnd.2 hat

/-- C3: creating a directory whose path sits above existing tracked
directories consolidates them in one transaction. Every file of a child
directory reappears (same id, same `current_snapshot_id`, same `deleted`
flag) under the new directory with its name prefixed by the child's path
relative to the new parent, the child's row is gone, the new row is
present, and the snapshot and content tables are untouched. -/
theorem createDirectory_consolidates
    (st : DBState) (newDirId : String) (now : Time) (path : String)
    (child : Directory) (f : File)
    (hids : (st.directories.map Directory.id).Nodup)
    (hnew : ∀ d ∈ st.directories, d.id ≠ newDirId)
    (hchild : child ∈ st.directories)
    (hunder : isUnderPath path child = true)
    (hf : f ∈ st.files) (hfd : f.directoryId = child.id) :
    ({ f with directoryId := newDirId, name := goJoin (goRel path child.path) f.name }
        ∈ (createDirectory st newDirId now path).files) ∧
    (∀ d ∈ (createDirectory st newDirId now path).directories, d.id ≠ child.id) ∧
    ({ id := newDirId, path := path, createdAt := now }
        ∈ (createDirectory st newDirId now path).directories) ∧
    (createDirectory st newDirId now path).snapshots = st.snapshots ∧
    (createDirectory st newDirId now path).contents = st.contents := by
  have hchildMem : child ∈ st.directories.filter (isUnderPath path) :=
    List.mem_filter.mpr ⟨hchild, hunder⟩
  have hndFilter : ((st.directories.filter (isUnderPath path)).map Directory.id).Nodup :=
    ((st.directories.filter_sublist (p := isUnderPath path)).map Directory.id).nodup hids
  refine ⟨?_, ?_, ?_, rfl, rfl⟩
  · have hfind : (st.directories.filter (isUnderPath path)).find?
        (fun d => d.id == f.directoryId) = some child := by
      rw [hfd]
      have := find?_eq_of_nodup_map (st.directories.filter (isUnderPath path))
        Directory.id child hndFilter hchildMem
      exact this
    unfold createDirectory
    simp only []
    refine List.mem_map.mpr ⟨f, hf, ?_⟩
    rw [hfind]
  · intro d hd
    unfold createDirectory at hd
    simp only [] at hd
    have hcond := (List.mem_filter.mp hd).2
    intro hdid
    rw [Bool.not_eq_true', List.any_eq_false] at hcond
    have h2 := hcond child hchildMem
    rw [hdid] at h2
    exact h2 (beq_self_eq_true child.id)
  · unfold createDirectory
    simp only []
    refine List.mem_filter.mpr ⟨List.mem_append_right _ (List.mem_singleton.mpr rfl), ?_⟩
    rw [Bool.not_eq_true', List.any_eq_false]
    intro c hc
    have hcmem : c ∈ st.directories := (List.mem_filter.mp hc).1
    intro hbeq
    exact hnew c hcmem (eq_of_beq hbeq)

/-- Witness for C3: consolidating tracked `/d/a` (holding `x.txt`) under a
new `/d` leaves the file named `a/x.txt` in `/d`, exactly as scenario S6
of the specification describes. -/
theorem createDirectory_consolidates_witness :
    ({ id := "fx", name := goJoin (goRel "/d" "/d/a") "x.txt", directoryId := "d-new",
       currentSnapshotId := some "snap1", deleted := false } : File)
      ∈ (createDirectory
          { directories := [{ id := "d-a", path := "/d/a", createdAt := 0 }],
            files := [{ id := "fx", name := "x.txt", directoryId := "d-a",
                        currentSnapshotId := some "snap1", deleted := false }],
            snapshots := [], contents := [] } "d-new" 9 "/d").files ∧
    goJoin (goRel "/d" "/d/a") "x.txt" = "a/x.txt" :=
  ⟨(createDirectory_consolidates
      { directories := [{ id := "d-a", path := "/d/a", createdAt := 0 }],
        files := [{ id := "fx", name := "x.txt", directoryId := "d-a",
                    currentSnapshotId := some "snap1", deleted := false }],
        snapshots := [], contents := [] }
      "d-new" 9 "/d"
      { id := "d-a", path := "/d/a", createdAt := 0 }
      { id := "fx", name := "x.txt", directoryId := "d-a",
        currentSnapshotId := some "snap1", deleted := false }
      (by decide) (by decide) (by decide) (by decide) (by decide) (by decide)).1,
   by decide⟩

/-- Auxiliary: the search fold only ever holds matching directories. -/
theorem searchFold_matches (path : String) (l : List Directory) :
    ∀ acc : Option Directory, (∀ b, acc = some b → dirMatchesPath path b = true) →
      ∀ d, l.foldl (searchStep path) acc = some d → dirMatchesPath path d = true := by
  induction l with
  | nil => intro acc hacc d hd; exact hacc d hd
  | cons x t ih =>
      intro acc hacc d hd
      rw [List.foldl_cons] at hd
      refine ih (searchStep path acc x) ?_ d hd
      intro b hb
      unfold searchStep at hb
      split at hb
      · next hmatch =>
          cases acc with
          | none => cases hb; exact hmatch
          | some a =>
              simp only [] at hb
              split at hb
              · cases hb; exact hmatch
              · exact hacc b hb
      · exact hacc b hb

/-- Auxiliary: folding from a non-empty accumulator yields a result at
most as long as the accumulator. -/
theorem searchFold_le (path : String) (l : List Directory) :
    ∀ b : Directory,
      ∃ d, l.foldl (searchStep path) (some b) = some d ∧ strLen d.path ≤ strLen b.path := by
  induction l with
  | nil => intro b; exact ⟨b, rfl, le_refl _⟩
  | cons x t ih =>
      intro b
      rw [List.foldl_cons]
      unfold searchStep
      split
      · simp only []
        split
        · next hlt =>
            obtain ⟨d, hd, hle⟩ := ih x
            exact ⟨d, hd, le_trans hle (le_of_lt hlt)⟩
        · exact ih b
      · exact ih b

/-- Auxiliary: any matching member of the list bounds the fold's result. -/
theorem searchFold_min (path : String) (l : List Directory) :
    ∀ acc : Option Directory, ∀ d' ∈ l, dirMatchesPath path d' = true →
      ∃ d, l.foldl (searchStep path) acc = some d ∧ strLen d.path ≤ strLen d'.path := by
  induction l with
  | nil => intro acc d' hd'; cases hd'
  | cons x t ih =>
      intro acc d' hd' hmatch
      rw [List.foldl_cons]
      rcases List.mem_cons.mp hd' with rfl | hdt
      · have hstep : ∃ c, searchStep path acc d' = some c ∧ strLen c.path ≤ strLen d'.path := by
          unfold searchStep
          rw [hmatch]
          simp only [if_true]
          cases acc with
          | none => exact ⟨d', rfl, le_refl _⟩
          | some a =>
              simp only []
              split
              · exact ⟨d', rfl, le_refl _⟩
              · next hnlt => exact ⟨a, rfl, le_of_not_lt hnlt⟩
        obtain ⟨c, hc, hcle⟩ := hstep
        rw [hc]
        obtain ⟨d, hd, hdle⟩ := searchFold_le path t c
        exact ⟨d, hd, le_trans hdle hcle⟩
      · exact ih (searchStep path acc x) d' hdt hmatch

/-- C9: `searchDirectoryForPath p` returns a directory `d` only when `p`
equals `d.path` or continues it across a `/` boundary (so a tracked
`/d/ab` is never returned for `/d/abc/f.txt`), and whenever some tracked
absolute-path directory matches, the returned directory has the shortest
path among the matches. -/
theorem searchDirectoryForPath_boundary_shortest (st : DBState) (path : String) :
    (∀ d, searchDirectoryForPath st path = some d →
        path = d.path ∨ strStartsWith path (d.path ++ "/") = true) ∧
    (∀ d' ∈ st.directories, strStartsWith d'.path "/" = true →
        dirMatchesPath path d' = true →
        ∃ d, searchDirectoryForPath st path = some d ∧
          strLen d.path ≤ strLen d'.path) := by
  constructor
  · intro d hd
    have hm := searchFold_matches path
      (st.directories.filter (fun d => strStartsWith d.path "/")) none
      (fun b hb => by cases hb) d hd
    unfold dirMatchesPath at hm
    rcases Bool.or_eq_true_iff.mp hm with h | h
    · exact Or.inl (eq_of_beq h)
    · exact Or.inr h
  · intro d' hd' habs hmatch
    exact searchFold_min path _ none d'
      (List.mem_filter.mpr ⟨hd', habs⟩) hmatch

/-- Witness for C9: with tracked directories `/d`, `/d/a` and `/d/ab`,
the query `/d/a/x.txt` matches `/d` and `/d/a` (not `/d/ab`), and the
shortest match `/d` is returned. -/
theorem searchDirectoryForPath_boundary_shortest_witness :
    (∃ d, searchDirectoryForPath
        { directories := [{ id := "dab", path := "/d/ab", createdAt := 0 },
                          { id := "da", path := "/d/a", createdAt := 0 },
                          { id := "dd", path := "/d", createdAt := 0 }],
          files := [], snapshots := [], contents := [] } "/d/a/x.txt" = some d ∧
      strLen d.path ≤ strLen "/d") ∧
    dirMatchesPath "/d/a/x.txt" { id := "dab", path := "/d/ab", createdAt := 0 } = false :=
  ⟨(searchDirectoryForPath_boundary_shortest
      { directories := [{ id := "dab", path := "/d/ab", createdAt := 0 },
                        { id := "da", path := "/d/a", createdAt := 0 },
                        { id := "dd", path := "/d", createdAt := 0 }],
        files := [], snapshots := [], contents := [] } "/d/a/x.txt").2
      { id := "dd", path := "/d", createdAt := 0 }
      (by decide) (by decide) (by decide),
   by decide⟩

/-! ### Association-map lemmas -/

/-- Key membership agrees with lookup success. -/
theorem mapHasKey_eq_isSome {α : Type} (m : List (String × α)) (k : String) :
    mapHasKey m k = (mapGet m k).isSome := by
  induction m with
  | nil => rfl
  | cons p t ih =>
      unfold mapHasKey mapGet at ih ⊢
      rw [List.any_cons, List.find?_cons]
      cases hp : (p.1 == k) with
      | true => simp
      | false => simpa using ih

/-- A missing key is not among the entries. -/
theorem not_key_of_hasKey_false {α : Type} (m : List (String × α)) (k : String)
    (h : mapHasKey m k = false) : ∀ p ∈ m, (p.1 == k) = false := by
  intro p hp
  unfold mapHasKey at h
  rw [List.any_eq_false] at h
  exact Bool.not_eq_true _ ▸ Bool.eq_false_iff.mpr (h p hp)

/-- Lookup at an absent key fails. -/
theorem mapGet_of_hasKey_false {α : Type} (m : List (String × α)) (k : String)
    (h : mapHasKey m k = false) : mapGet m k = none := by
  unfold mapGet
  have : m.find? (fun p => p.1 == k) = none := by
    rw [List.find?_eq_none]
    intro p hp
    simp [not_key_of_hasKey_false m k h p hp]
  rw [this]
  rfl

/-- In-place replacement of the entries of key `k` looks up to the new
value exactly when the key was present. -/
theorem mapGet_replaceEntry {α : Type} (m : List (String × α)) (k : String) (v : α) :
    mapGet (m.map (fun p => if p.1 == k then (k, v) else p)) k
      = if mapHasKey m k then some v else none := by
  induction m with
  | nil => rfl
  | cons p t ih =>
      by_cases hp : (p.1 == k) = true
      · simp only [List.map_cons, hp, if_true]
        unfold mapGet mapHasKey
        simp only [List.find?_cons, List.any_cons, hp, beq_self_eq_true]
        simp
      · rw [Bool.not_eq_true] at hp
        simp only [List.map_cons, hp, Bool.false_eq_true, if_false]
        unfold mapGet mapHasKey at ih ⊢
        simp only [List.find?_cons, List.any_cons, hp]
        simpa using ih

/-- In-place replacement of the entries of key `k` does not affect other
keys. -/
theorem mapGet_replaceEntry_ne {α : Type} (m : List (String × α)) (k k' : String) (v : α)
    (h : k' ≠ k) :
    mapGet (m.map (fun p => if p.1 == k then (k, v) else p)) k' = mapGet m k' := by
  induction m with
  | nil => rfl
  | cons p t ih =>
      by_cases hp : (p.1 == k) = true
      · have hkk' : (k == k') = false := by
          rw [beq_eq_false_iff_ne]
          exact fun hkk => h hkk.symm
        have hp' : (p.1 == k') = false := by
          rw [beq_eq_false_iff_ne]
          rw [beq_iff_eq] at hp
          rw [hp]
          exact fun hkk => h hkk.symm
        simp only [List.map_cons, hp, if_true]
        unfold mapGet at ih ⊢
        simp only [List.find?_cons, hkk', hp']
        exact ih
      · rw [Bool.not_eq_true] at hp
        simp only [List.map_cons, hp, Bool.false_eq_true, if_false]
        unfold mapGet at ih ⊢
        cases hp' : (p.1 == k') with
        | true => simp only [List.find?_cons, hp']
        | false =>
            simp only [List.find?_cons, hp']
            exact ih

/-- Assignment stores the value under its key. -/
theorem mapGet_mapSet_self {α : Type} (m : List (String × α)) (k : String) (v : α) :
    mapGet (mapSet m k v) k = some v := by
  unfold mapSet
  cases hk : mapHasKey m k with
  | false =>
      simp only [Bool.false_eq_true, if_false]
      unfold mapGet
      rw [List.find?_append]
      have : m.find? (fun p => p.1 == k) = none := by
        rw [List.find?_eq_none]
        intro p hp
        simp [not_key_of_hasKey_false m k hk p hp]
      rw [this]
      simp
  | true =>
      simp only [if_true]
      rw [mapGet_replaceEntry, hk]
      rfl

/-- Assignment leaves other keys alone. -/
theorem mapGet_mapSet_ne {α : Type} (m : List (String × α)) (k k' : String) (v : α)
    (h : k' ≠ k) : mapGet (mapSet m k v) k' = mapGet m k' := by
  unfold mapSet
  cases hk : mapHasKey m k with
  | false =>
      simp only [Bool.false_eq_true, if_false]
      unfold mapGet
      rw [List.find?_append]
      have hone : List.find? (fun p => p.1 == k') [(k, v)] = none := by
        rw [List.find?_eq_none]
        intro p hp
        rw [List.mem_singleton.mp hp]
        simpa using fun hkk => h hkk.symm
      rw [hone]
      cases m.find? (fun p => p.1 == k') <;> rfl
  | true =>
      simp only [if_true]
      exact mapGet_replaceEntry_ne m k k' v h

/-- Deletion removes the key. -/
theorem mapGet_mapDelete_self {α : Type} (m : List (String × α)) (k : String) :
    mapGet (mapDelete m k) k = none := by
  unfold mapGet mapDelete
  have : (m.filter (fun p => !(p.1 == k))).find? (fun p => p.1 == k) = none := by
    rw [List.find?_eq_none]
    intro p hp
    have := (List.mem_filter.mp hp).2
    simpa using this
  rw [this]
  rfl

/-- Deletion leaves other keys alone. -/
theorem mapGet_mapDelete_ne {α : Type} (m : List (String × α)) (k k' : String)
    (h : k' ≠ k) : mapGet (mapDelete m k) k' = mapGet m k' := by
  unfold mapGet mapDelete
  induction m with
  | nil => rfl
  | cons p t ih =>
      by_cases hp : (p.1 == k') = true
      · have hkeep : (p.1 == k) = false := by
          rw [beq_eq_false_iff_ne]
          rw [beq_iff_eq] at hp
          rw [hp]
          exact h
        simp [List.filter_cons, List.find?_cons, hp, hkeep]
      · rw [Bool.not_eq_true] at hp
        by_cases hdel : (p.1 == k) = true
        · simp only [List.filter_cons, hdel, Bool.not_true, Bool.false_eq_true,
            if_false, List.find?_cons, hp] at ih ⊢
          exact ih
        · rw [Bool.not_eq_true] at hdel
          simp only [List.filter_cons, hdel, Bool.not_false, if_true,
            List.find?_cons, hp, Bool.false_eq_true, if_false] at ih ⊢
          exact ih

/-- Every entry of `mapSet m k v` either carries key `k` or was in `m`. -/
theorem mem_mapSet {α : Type} (m : List (String × α)) (k : String) (v : α)
    (p : String × α) (hp : p ∈ mapSet m k v) : p.1 = k ∨ p ∈ m := by
  unfold mapSet at hp
  split at hp
  · obtain ⟨q, hq, hgq⟩ := List.mem_map.mp hp
    by_cases hqk : (q.1 == k) = true
    · rw [if_pos hqk] at hgq
      left
      rw [← hgq]
    · rw [if_neg hqk] at hgq
      right
      rw [← hgq]
      exact hq
  · rcases List.mem_append.mp hp with h | h
    · right; exact h
    · left
      rw [List.mem_singleton.mp h]

/-- Every entry of `mapDelete m k` was in `m` and has a different key. -/
theorem mem_mapDelete {α : Type} (m : List (String × α)) (k : String)
    (p : String × α) (hp : p ∈ mapDelete m k) : p ∈ m ∧ p.1 ≠ k := by
  unfold mapDelete at hp
  have := List.mem_filter.mp hp
  refine ⟨this.1, ?_⟩
  have h2 := this.2
  simpa using h2

/-- Assignment preserves distinctness of keys. -/
theorem keysNodup_mapSet {α : Type} (m : List (String × α)) (k : String) (v : α)
    (h : (m.map Prod.fst).Nodup) : ((mapSet m k v).map Prod.fst).Nodup := by
  unfold mapSet
  cases hk : mapHasKey m k with
  | false =>
      simp only [Bool.false_eq_true, if_false]
      rw [List.map_append]
      rw [List.nodup_append]
      refine ⟨h, List.nodup_singleton k, ?_⟩
      intro a ha hb
      rw [List.map_singleton, List.mem_singleton] at hb
      obtain ⟨p, hp, hpa⟩ := List.mem_map.mp ha
      have hne := not_key_of_hasKey_false m k hk p hp
      rw [beq_eq_false_iff_ne] at hne
      exact hne (hpa.trans hb)
  | true =>
      simp only [if_true]
      have : (m.map (fun p => if p.1 == k then (k, v) else p)).map Prod.fst
          = m.map Prod.fst := by
        rw [List.map_map]
        refine List.map_congr_left ?_
        intro p _
        by_cases hpk : (p.1 == k) = true
        · simp only [Function.comp_apply, if_pos hpk]
          rw [beq_iff_eq] at hpk
          exact hpk.symm
        · simp only [Function.comp_apply, if_neg hpk]
      rw [this]
      exact h

/-- Deletion preserves distinctness of keys. -/
theorem keysNodup_mapDelete {α : Type} (m : List (String × α)) (k : String)
    (h : (m.map Prod.fst).Nodup) : ((mapDelete m k).map Prod.fst).Nodup := by
  unfold mapDelete
  exact ((m.filter_sublist).map Prod.fst).nodup h

/-- `refGet` after assigning the same key. -/
theorem refGet_mapSet_self (m : List (String × Int)) (k : String) (v : Int) :
    refGet (mapSet m k v) k = v := by
  unfold refGet
  rw [mapGet_mapSet_self]
  rfl

/-- `refGet` after assigning a different key. -/
theorem refGet_mapSet_ne (m : List (String × Int)) (k k' : String) (v : Int)
    (h : k' ≠ k) : refGet (mapSet m k v) k' = refGet m k' := by
  unfold refGet
  rw [mapGet_mapSet_ne m k k' v h]

/-- `refGet` after deleting the same key. -/
theorem refGet_mapDelete_self (m : List (String × Int)) (k : String) :
    refGet (mapDelete m k) k = 0 := by
  unfold refGet
  rw [mapGet_mapDelete_self]
  rfl

/-- `refGet` after deleting a different key. -/
theorem refGet_mapDelete_ne (m : List (String × Int)) (k k' : String)
    (h : k' ≠ k) : refGet (mapDelete m k) k' = refGet m k' := by
  unfold refGet
  rw [mapGet_mapDelete_ne m k k' h]

/-- Byte total of a map extended by a fresh entry. -/
theorem contentSizeSum_append (m : List (String × List Nat)) (k : String) (v : List Nat) :
    contentSizeSum (m ++ [(k, v)]) = contentSizeSum m + (v.length : Int) := by
  unfold contentSizeSum
  rw [List.map_append, List.sum_append]
  simp

/-- Deleting an absent key is a no-op. -/
theorem mapDelete_of_hasKey_false {α : Type} (m : List (String × α)) (k : String)
    (h : mapHasKey m k = false) : mapDelete m k = m := by
  unfold mapDelete
  rw [List.filter_eq_self]
  intro p hp
  simp [not_key_of_hasKey_false m k h p hp]

/-- Deleting the key just appended to a map that lacked it restores the map. -/
theorem mapDelete_append_self {α : Type} (m : List (String × α)) (k : String) (v : α)
    (h : mapHasKey m k = false) : mapDelete (m ++ [(k, v)]) k = m := by
  unfold mapDelete
  rw [List.filter_append]
  have h1 : m.filter (fun p => !(p.1 == k)) = m := mapDelete_of_hasKey_false m k h
  have h2 : List.filter (fun p => !(p.1 == k)) [(k, v)] = [] := by simp
  rw [h1, h2, List.append_nil]

/-- Byte total after deleting the (unique) entry of a key. -/
theorem contentSizeSum_mapDelete (m : List (String × List Nat)) (k : String)
    (b : List Nat) (hnd : (m.map Prod.fst).Nodup) (hb : mapGet m k = some b) :
    contentSizeSum (mapDelete m k) = contentSizeSum m - (b.length : Int) := by
  induction m with
  | nil => simp [mapGet] at hb
  | cons p t ih =>
      rw [List.map_cons, List.nodup_cons] at hnd
      unfold mapGet at hb
      rw [List.find?_cons] at hb
      cases hp : (p.1 == k) with
      | true =>
          rw [hp] at hb
          simp only [Option.map_some] at hb
          cases hb
          have hpk : p.1 = k := beq_iff_eq.mp hp
          have htk : mapHasKey t k = false := by
            rw [← Bool.not_eq_true]
            intro hk2
            unfold mapHasKey at hk2
            obtain ⟨q, hq, hqk⟩ := List.any_eq_true.mp hk2
            rw [beq_iff_eq] at hqk
            apply hnd.1
            rw [hpk, ← hqk]
            exact List.mem_map_of_mem Prod.fst hq
          unfold mapDelete
          rw [List.filter_cons]
          have : (!(p.1 == k)) = false := by rw [hp]; rfl
          rw [this]
          simp only [Bool.false_eq_true, if_false]
          have := mapDelete_of_hasKey_false t k htk
          unfold mapDelete at this
          rw [this]
          unfold contentSizeSum
          rw [List.map_cons, List.sum_cons]
          ring
      | false =>
          rw [hp] at hb
          unfold mapDelete
          rw [List.filter_cons]
          have : (!(p.1 == k)) = true := by rw [hp]; rfl
          rw [this]
          simp only [if_true]
          have ihr := ih hnd.2 hb
          unfold mapDelete at ihr
          unfold contentSizeSum at ihr ⊢
          rw [List.map_cons, List.sum_cons, List.map_cons, List.sum_cons, ihr]
          ring

/-- Reference count over an extended queue. -/
theorem countRefs_append (q : List StagedOperation) (op : StagedOperation) (c : String) :
    countRefs (q ++ [op]) c
      = countRefs q c + (if op.snapshot.contentId == c then 1 else 0) := by
  unfold countRefs
  rw [List.filter_append]
  rw [List.length_append]
  congr 1
  cases h : (op.snapshot.contentId == c) with
  | true => simp [List.filter_cons, h]
  | false => simp [List.filter_cons, h]

/-- Reference count over a queue with its head split off. -/
theorem countRefs_cons (op : StagedOperation) (q : List StagedOperation) (c : String) :
    countRefs (op :: q) c
      = (if op.snapshot.contentId == c then 1 else 0) + countRefs q c := by
  unfold countRefs
  rw [List.filter_cons]
  split
  · rw [List.length_cons]; omega
  · omega

/-- A queue member referencing a checksum makes its count positive. -/
theorem countRefs_pos_of_mem (q : List StagedOperation) (op : StagedOperation)
    (hop : op ∈ q) (c : String) (hc : op.snapshot.contentId = c) :
    0 < countRefs q c := by
  unfold countRefs
  rw [List.length_pos_iff_exists_mem]
  exact ⟨op, List.mem_filter.mpr ⟨hop, by rw [hc]; exact beq_self_eq_true c⟩⟩

/-- Appending entries on the right preserves key presence. -/
theorem mapHasKey_append_left {α : Type} (m l : List (String × α)) (k : String)
    (h : mapHasKey m k = true) : mapHasKey (m ++ l) k = true := by
  unfold mapHasKey at h ⊢
  rw [List.any_append, h]
  rfl

/-- The appended entry's key is present. -/
theorem mapHasKey_append_self {α : Type} (m : List (String × α)) (k : String) (v : α) :
    mapHasKey (m ++ [(k, v)]) k = true := by
  unfold mapHasKey
  rw [List.any_append]
  simp

/-- Assigning a fresh key appends its entry. -/
theorem mapSet_eq_append {α : Type} (m : List (String × α)) (k : String) (v : α)
    (h : mapHasKey m k = false) : mapSet m k v = m ++ [(k, v)] := by
  unfold mapSet
  rw [h]
  rfl

/-- A queue extension never lowers a reference count. -/
theorem countRefs_le_append (q : List StagedOperation) (op : StagedOperation) (c : String) :
    countRefs q c ≤ countRefs (q ++ [op]) c := by
  rw [countRefs_append]
  cases (op.snapshot.contentId == c) <;> simp

/-! ### Preservation of the staging accounting invariant -/

/-- A successful `Stage` preserves the accounting invariant: both the
dedup branch (content already stored) and the fresh branch (bytes added
within budget) extend the queue by one reference and keep the refcounts,
presence, liveness and size balanced. Failed stages return the state
unchanged. -/
theorem memStage_preserves (st : MemStagingState) (directory : Directory)
    (relativePath : String) (info1 : FileInfo) (stat1 : StatData)
    (content : List Nat) (checksum : String) (info2 : FileInfo) (stat2 : StatData)
    (hinv : MemStagingInv st) :
    MemStagingInv
      (memStage st directory relativePath info1 stat1 content checksum info2 stat2).1 := by
  unfold memStage
  by_cases hv : validateStatUnchanged info1 info2 stat1 stat2 = false
  · rw [if_pos hv]
    exact hinv
  · rw [if_neg hv]
    set op : StagedOperation :=
      { directoryId := directory.id, relativePath := relativePath,
        snapshot := buildStagedSnapshot checksum info1 stat1 } with hop
    have hopc : op.snapshot.contentId = checksum := rfl
    by_cases hk : mapHasKey st.content checksum = true
    · rw [if_pos hk]
      simp only []
      unfold memAppendOp
      constructor
      · intro c
        by_cases hc : c = checksum
        · subst hc
          rw [refGet_mapSet_self, countRefs_append, hinv.refAccurate c]
          have hb : ((buildStagedSnapshot c info1 stat1).contentId == c) = true := by
            have hcc : (buildStagedSnapshot c info1 stat1).contentId = c := rfl
            rw [hcc]
            exact beq_self_eq_true c
          rw [hb]
          simp only [if_true]
          push_cast
          ring
        · rw [refGet_mapSet_ne _ _ _ _ hc, countRefs_append, hinv.refAccurate c]
          have : (op.snapshot.contentId == c) = false := by
            rw [hopc, beq_eq_false_iff_ne]
            exact fun hcc => hc hcc.symm
          rw [this]
          simp
      · intro p hp
        rcases mem_mapSet _ _ _ p hp with hpk | hpm
        · rw [hpk]
          exact countRefs_pos_of_mem _ op (List.mem_append_right _ (List.mem_singleton.mpr rfl))
            checksum hopc
        · exact lt_of_lt_of_le (hinv.refKeysLive p hpm) (countRefs_le_append _ op _)
      · intro op' hop'
        rcases List.mem_append.mp hop' with h | h
        · exact hinv.contentPresent op' h
        · rw [List.mem_singleton.mp h, hopc]
          exact hk
      · intro p hp
        exact lt_of_lt_of_le (hinv.contentKeysLive p hp) (countRefs_le_append _ op _)
      · exact hinv.sizeAccurate
      · exact hinv.contentKeysNodup
      · exact keysNodup_mapSet _ _ _ hinv.refKeysNodup
    · rw [if_neg hk]
      rw [Bool.not_eq_true] at hk
      by_cases hfull : st.currentSize + (content.length : Int) > st.maxSize
      · rw [if_pos hfull]
        exact hinv
      · rw [if_neg hfull]
        simp only []
        unfold memAppendOp
        constructor
        · intro c
          by_cases hc : c = checksum
          · subst hc
            rw [refGet_mapSet_self, countRefs_append, hinv.refAccurate c]
            have hb : ((buildStagedSnapshot c info1 stat1).contentId == c) = true := by
              have hcc : (buildStagedSnapshot c info1 stat1).contentId = c := rfl
              rw [hcc]
              exact beq_self_eq_true c
            rw [hb]
            simp only [if_true]
            push_cast
            ring
          · rw [refGet_mapSet_ne _ _ _ _ hc, countRefs_append, hinv.refAccurate c]
            have : (op.snapshot.contentId == c) = false := by
              rw [hopc, beq_eq_false_iff_ne]
              exact fun hcc => hc hcc.symm
            rw [this]
            simp
        · intro p hp
          rcases mem_mapSet _ _ _ p hp with hpk | hpm
          · rw [hpk]
            exact countRefs_pos_of_mem _ op
              (List.mem_append_right _ (List.mem_singleton.mpr rfl)) checksum hopc
          · exact lt_of_lt_of_le (hinv.refKeysLive p hpm) (countRefs_le_append _ op _)
        · intro op' hop'
          rcases List.mem_append.mp hop' with h | h
          · exact mapHasKey_append_left _ _ _ (hinv.contentPresent op' h)
          · rw [List.mem_singleton.mp h, hopc]
            exact mapHasKey_append_self _ _ _
        · intro p hp
          rcases List.mem_append.mp hp with h | h
          · exact lt_of_lt_of_le (hinv.contentKeysLive p h) (countRefs_le_append _ op _)
          · rw [List.mem_singleton.mp h]
            exact countRefs_pos_of_mem _ op
              (List.mem_append_right _ (List.mem_singleton.mpr rfl)) checksum hopc
        · rw [contentSizeSum_append, hinv.sizeAccurate]
        · rw [← mapSet_eq_append _ _ _ hk]
          exact keysNodup_mapSet _ _ _ hinv.contentKeysNodup
        · exact keysNodup_mapSet _ _ _ hinv.refKeysNodup

/-- A reference count with the head operation split off, when the head
references a different checksum. -/
theorem countRefs_cons_ne (op : StagedOperation) (q : List StagedOperation) (c : String)
    (h : op.snapshot.contentId ≠ c) : countRefs (op :: q) c = countRefs q c := by
  rw [countRefs_cons]
  have : (op.snapshot.contentId == c) = false := beq_eq_false_iff_ne.mpr h
  rw [this]
  simp

/-- `ProcessNext` preserves the accounting invariant: an empty queue, a
failing callback and missing bytes leave the state untouched; a
successful drain removes the head's reference and deletes the bytes
exactly when the last reference is gone. -/
theorem memProcessNext_preserves (st : MemStagingState) (callbackOk : Bool)
    (hinv : MemStagingInv st) :
    MemStagingInv (memProcessNext st callbackOk).1 := by
  unfold memProcessNext
  cases hq : st.queue with
  | nil => exact hinv
  | cons op rest =>
      simp only []
      cases hg : mapGet st.content op.snapshot.contentId with
      | none => exact hinv
      | some b =>
          cases callbackOk with
          | false => exact hinv
          | true =>
              simp only [Bool.true_eq_false, if_false]
              have hself : (op.directoryId == op.directoryId &&
                  op.relativePath == op.relativePath &&
                  op.snapshot.contentId == op.snapshot.contentId) = true := by
                simp
              rw [hself]
              simp only [if_true]
              rw [refGet_mapSet_self]
              have hra : refGet st.refCount op.snapshot.contentId
                  = ((1 + countRefs rest op.snapshot.contentId : Nat) : Int) := by
                rw [hinv.refAccurate op.snapshot.contentId, hq, countRefs_cons,
                  beq_self_eq_true]
                simp
              rw [hra]
              split
              · next hle =>
                  have hn0 : countRefs rest op.snapshot.contentId = 0 := by
                    push_cast at hle
                    omega
                  constructor
                  · intro c
                    by_cases hc : c = op.snapshot.contentId
                    · subst hc
                      show refGet (mapDelete (mapSet st.refCount op.snapshot.contentId
                          (((1 + countRefs rest op.snapshot.contentId : Nat) : Int) - 1))
                          op.snapshot.contentId) op.snapshot.contentId
                        = ((countRefs rest op.snapshot.contentId : Nat) : Int)
                      rw [refGet_mapDelete_self, hn0]
                      simp
                    · rw [refGet_mapDelete_ne _ _ _ hc,
                        refGet_mapSet_ne _ _ _ _ hc, hinv.refAccurate c, hq,
                        countRefs_cons_ne op rest c (fun hcc => hc hcc.symm)]
                  · intro p hp
                    obtain ⟨hp1, hpne⟩ := mem_mapDelete _ _ p hp
                    rcases mem_mapSet _ _ _ p hp1 with hpk | hpm
                    · exact absurd hpk hpne
                    · have := hinv.refKeysLive p hpm
                      rw [hq, countRefs_cons_ne op rest p.1 (fun hcc => hpne hcc.symm)] at this
                      exact this
                  · intro op' hop'
                    have hne : op'.snapshot.contentId ≠ op.snapshot.contentId := by
                      intro hcc
                      have := countRefs_pos_of_mem rest op' hop' _ hcc
                      omega
                    rw [mapHasKey_eq_isSome, mapGet_mapDelete_ne _ _ _ hne,
                      ← mapHasKey_eq_isSome]
                    exact hinv.contentPresent op' (hq ▸ List.mem_cons_of_mem op hop')
                  · intro p hp
                    obtain ⟨hp1, hpne⟩ := mem_mapDelete _ _ p hp
                    have := hinv.contentKeysLive p hp1
                    rw [hq, countRefs_cons_ne op rest p.1 (fun hcc => hpne hcc.symm)] at this
                    exact this
                  · rw [contentSizeSum_mapDelete st.content op.snapshot.contentId b
                      hinv.contentKeysNodup hg, hinv.sizeAccurate]
                  · exact keysNodup_mapDelete _ _ hinv.contentKeysNodup
                  · exact keysNodup_mapDelete _ _
                      (keysNodup_mapSet _ _ _ hinv.refKeysNodup)
              · next hgt =>
                  have hn1 : 0 < countRefs rest op.snapshot.contentId := by
                    push_cast at hgt
                    omega
                  constructor
                  · intro c
                    by_cases hc : c = op.snapshot.contentId
                    · subst hc
                      show refGet (mapSet st.refCount op.snapshot.contentId
                          (((1 + countRefs rest op.snapshot.contentId : Nat) : Int) - 1))
                          op.snapshot.contentId
                        = ((countRefs rest op.snapshot.contentId : Nat) : Int)
                      rw [refGet_mapSet_self]
                      push_cast
                      ring
                    · rw [refGet_mapSet_ne _ _ _ _ hc, hinv.refAccurate c, hq,
                        countRefs_cons_ne op rest c (fun hcc => hc hcc.symm)]
                  · intro p hp
                    rcases mem_mapSet _ _ _ p hp with hpk | hpm
                    · rw [hpk]
                      exact hn1
                    · by_cases hpc : p.1 = op.snapshot.contentId
                      · rw [hpc]
                        exact hn1
                      · have := hinv.refKeysLive p hpm
                        rw [hq, countRefs_cons_ne op rest p.1 (fun hcc => hpc hcc.symm)]
                          at this
                        exact this
                  · intro op' hop'
                    exact hinv.contentPresent op' (hq ▸ List.mem_cons_of_mem op hop')
                  · intro p hp
                    by_cases hpc : p.1 = op.snapshot.contentId
                    · rw [hpc]
                      exact hn1
                    · have := hinv.contentKeysLive p hp
                      rw [hq, countRefs_cons_ne op rest p.1 (fun hcc => hpc hcc.symm)]
                        at this
                      exact this
                  · exact hinv.sizeAccurate
                  · exact hinv.contentKeysNodup
                  · exact keysNodup_mapSet _ _ _ hinv.refKeysNodup

/-- C10: every interleaving of `Stage` calls and `ProcessNext` calls on a
fresh in-memory staging area preserves the accounting invariant — the
refcount of each checksum equals the number of queue entries referencing
it, every queued entry's bytes are stored, stored bytes and refcount
entries are still referenced, and the tracked size equals the stored
bytes — and consequently an emptied queue means empty refcounts, an
empty byte store and zero size. -/
theorem memStagingArea_accounting_invariant (maxSize : Int) (events : List StagingEvent) :
    MemStagingInv (runStaging maxSize events) ∧
    ((runStaging maxSize events).queue = [] →
      (runStaging maxSize events).refCount = [] ∧
      (runStaging maxSize events).content = [] ∧
      (runStaging maxSize events).currentSize = 0) := by
  have hinit : MemStagingInv (initMemStaging maxSize) := by
    constructor
    · intro c; rfl
    · intro p hp; cases hp
    · intro op hop; cases hop
    · intro p hp; cases hp
    · rfl
    · exact List.nodup_nil
    · exact List.nodup_nil
  have hstep : ∀ (st : MemStagingState) (e : StagingEvent),
      MemStagingInv st → MemStagingInv (stagingStep st e) := by
    intro st e h
    cases e with
    | stage d r i1 s1 c ck i2 s2 => exact memStage_preserves st d r i1 s1 c ck i2 s2 h
    | process ok => exact memProcessNext_preserves st ok h
  have hrun : ∀ (l : List StagingEvent) (st : MemStagingState),
      MemStagingInv st → MemStagingInv (l.foldl stagingStep st) := by
    intro l
    induction l with
    | nil => intro st h; exact h
    | cons e t ih => intro st h; exact ih _ (hstep st e h)
  have hinv : MemStagingInv (runStaging maxSize events) := hrun events _ hinit
  refine ⟨hinv, ?_⟩
  intro hempty
  have hrc : (runStaging maxSize events).refCount = [] := by
    rw [List.eq_nil_iff_forall_not_mem]
    intro p hp
    have := hinv.refKeysLive p hp
    rw [hempty] at this
    simp [countRefs] at this
  have hct : (runStaging maxSize events).content = [] := by
    rw [List.eq_nil_iff_forall_not_mem]
    intro p hp
    have := hinv.contentKeysLive p hp
    rw [hempty] at this
    simp [countRefs] at this
  refine ⟨hrc, hct, ?_⟩
  rw [hinv.sizeAccurate, hct]
  rfl

/-- Witness for C10: staging one file and draining it leaves the area
empty, by the invariant theorem applied to that concrete trace. -/
theorem memStagingArea_accounting_invariant_witness :
    (runStaging 100 stagingWitnessEvents).queue = [] ∧
    (runStaging 100 stagingWitnessEvents).refCount = [] ∧
    (runStaging 100 stagingWitnessEvents).content = [] ∧
    (runStaging 100 stagingWitnessEvents).currentSize = 0 :=
  ⟨by decide,
   (memStagingArea_accounting_invariant 100 stagingWitnessEvents).2 (by decide)⟩

/-- The in-memory `Stage` aborts before touching any state when the
re-stat validation fails: the store, queue and refcounts are exactly the
pre-call ones. -/
theorem memStage_fileChanged_unchanged (st : MemStagingState) (directory : Directory)
    (relativePath : String) (info1 : FileInfo) (stat1 : StatData)
    (content : List Nat) (checksum : String) (info2 : FileInfo) (stat2 : StatData)
    (h : validateStatUnchanged info1 info2 stat1 stat2 = false) :
    memStage st directory relativePath info1 stat1 content checksum info2 stat2
      = (st, some .fileChanged) := by
  unfold memStage
  rw [if_pos h]

/-- Closed instance of the previous lemma, discharging its hypothesis at
a concrete changed mtime. -/
theorem memStage_fileChanged_unchanged_witness :
    memStage (initMemStaging 100) { id := "dirA", path := "/d", createdAt := 0 } "a.txt"
        sampleInfo sampleStat [1, 2] "ck"
        { sampleInfo with modTime := 51 } sampleStat
      = (initMemStaging 100, some .fileChanged) :=
  memStage_fileChanged_unchanged (initMemStaging 100)
    { id := "dirA", path := "/d", createdAt := 0 } "a.txt"
    sampleInfo sampleStat [1, 2] "ck" { sampleInfo with modTime := 51 } sampleStat
    (by decide)

/-- C4: the claim — a `Stage` whose post-read re-stat differs leaves
previously present, still-referenced content bytes available — fails on
the filesystem staging area. In `fsSharedState` the bytes of checksum
`"sh"` are stored and referenced by a queued operation; staging a second
file with the same bytes whose mtime changes during the read fails with
`FileChanged` and deletes the shared content file, leaving the queued
operation pointing at nothing (its later `ProcessNext` would fail with
"content not found"). -/
theorem fsStage_restat_failure_removes_shared_content :
    countRefs fsSharedState.queue "sh" = 1 ∧
    mapGet fsSharedState.contentDir "sh" = some [1, 2, 3, 4] ∧
    (fsStage fsSharedState { id := "dirB", path := "/d", createdAt := 0 } "b.txt"
        sampleInfo sampleStat [1, 2, 3, 4] "sh"
        { sampleInfo with modTime := 51 } sampleStat).2 = some .fileChanged ∧
    mapGet (fsStage fsSharedState { id := "dirB", path := "/d", createdAt := 0 } "b.txt"
        sampleInfo sampleStat [1, 2, 3, 4] "sh"
        { sampleInfo with modTime := 51 } sampleStat).1.contentDir "sh" = none ∧
    countRefs (fsStage fsSharedState { id := "dirB", path := "/d", createdAt := 0 } "b.txt"
        sampleInfo sampleStat [1, 2, 3, 4] "sh"
        { sampleInfo with modTime := 51 } sampleStat).1.queue "sh" = 1 :=
  ⟨by decide, by decide, by decide, by decide, by decide⟩

/-- C5: the size-budget boundary of `Stage`, for both implementations.
With an unchanged re-stat: a file whose bytes exactly fill the remaining
budget stages successfully; one byte more fails with `StagingFull` and
leaves the store exactly as it was; and the failure only ever undoes
content the call itself created — content already present deduplicates,
is kept, and (within budget) never triggers `StagingFull`. -/
theorem stage_budget_boundary
    (mst : MemStagingState) (fst : FsStagingState) (directory : Directory)
    (relativePath : String) (info1 info2 : FileInfo) (stat1 stat2 : StatData)
    (content : List Nat) (checksum : String)
    (hv : validateStatUnchanged info1 info2 stat1 stat2 = true) :
    (mapHasKey mst.content checksum = false →
      mst.currentSize + (content.length : Int) = mst.maxSize →
      (memStage mst directory relativePath info1 stat1 content checksum info2 stat2).2
        = none) ∧
    (mapHasKey mst.content checksum = false →
      mst.currentSize + (content.length : Int) = mst.maxSize + 1 →
      memStage mst directory relativePath info1 stat1 content checksum info2 stat2
        = (mst, some .stagingFull)) ∧
    (mapHasKey mst.content checksum = true →
      (memStage mst directory relativePath info1 stat1 content checksum info2 stat2).2
          = none ∧
      (memStage mst directory relativePath info1 stat1 content checksum info2 stat2).1.content
          = mst.content) ∧
    (mapHasKey fst.contentDir checksum = false →
      fsSize fst + (content.length : Int) = fst.maxSize →
      (fsStage fst directory relativePath info1 stat1 content checksum info2 stat2).2
        = none) ∧
    (mapHasKey fst.contentDir checksum = false →
      fsSize fst + (content.length : Int) = fst.maxSize + 1 →
      fsStage fst directory relativePath info1 stat1 content checksum info2 stat2
        = (fst, some .stagingFull)) ∧
    (fsSize fst ≤ fst.maxSize →
      (fsStage fst directory relativePath info1 stat1 content checksum info2 stat2).2
          = some .stagingFull →
      mapHasKey fst.contentDir checksum = false ∧
      (fsStage fst directory relativePath info1 stat1 content checksum info2 stat2).1.contentDir
          = fst.contentDir) := by
  have hvne : ¬ validateStatUnchanged info1 info2 stat1 stat2 = false := by
    rw [hv]
    simp
  refine ⟨?_, ?_, ?_, ?_, ?_, ?_⟩
  · intro hk hfit
    unfold memStage
    rw [if_neg hvne, if_neg (by rw [hk]; simp), if_neg (by rw [hfit]; exact lt_irrefl _)]
  · intro hk hover
    unfold memStage
    rw [if_neg hvne, if_neg (by rw [hk]; simp), if_pos (by rw [hover]; exact lt_add_one _)]
  · intro hk
    unfold memStage
    rw [if_neg hvne, if_pos hk]
    exact ⟨rfl, rfl⟩
  · intro hk hfit
    have hkne : ¬ (mapHasKey fst.contentDir checksum = true) := by rw [hk]; simp
    unfold fsStage
    rw [if_neg hvne, if_neg hkne]
    have hs : fsSize { fst with contentDir := fst.contentDir ++ [(checksum, content)] }
        = fsSize fst + (content.length : Int) := by
      unfold fsSize
      exact contentSizeSum_append _ _ _
    rw [if_neg (by rw [hs, hfit]; exact lt_irrefl _)]
  · intro hk hover
    have hkne : ¬ (mapHasKey fst.contentDir checksum = true) := by rw [hk]; simp
    unfold fsStage
    rw [if_neg hvne, if_neg hkne]
    have hs : fsSize { fst with contentDir := fst.contentDir ++ [(checksum, content)] }
        = fsSize fst + (content.length : Int) := by
      unfold fsSize
      exact contentSizeSum_append _ _ _
    rw [if_pos (by rw [hs, hover]; exact lt_add_one _)]
    rw [mapDelete_append_self _ _ _ hk]
  · intro hwf hfail
    cases hk : mapHasKey fst.contentDir checksum with
    | true =>
        exfalso
        unfold fsStage at hfail
        rw [if_neg hvne, if_pos hk] at hfail
        rw [if_neg (not_lt.mpr hwf)] at hfail
        exact Option.noConfusion hfail
    | false =>
        have hkne : ¬ (mapHasKey fst.contentDir checksum = true) := by rw [hk]; simp
        refine ⟨rfl, ?_⟩
        unfold fsStage at hfail ⊢
        rw [if_neg hvne, if_neg hkne] at hfail ⊢
        by_cases hsz : fsSize { fst with contentDir := fst.contentDir ++ [(checksum, content)] }
            > fst.maxSize
        · rw [if_pos hsz]
          exact mapDelete_append_self _ _ _ hk
        · rw [if_neg hsz] at hfail
          exact absurd hfail (by simp)

/-- Witness for C5: the boundary theorem applied at concrete staging
areas — four bytes exactly fill a budget of four and stage successfully;
against a budget of three the same bytes fail with `StagingFull` and
leave the area untouched. -/
theorem stage_budget_boundary_witness :
    (memStage (initMemStaging 4) { id := "dirA", path := "/d", createdAt := 0 } "a.txt"
        sampleInfo sampleStat [9, 9, 9, 9] "ck" sampleInfo sampleStat).2 = none ∧
    memStage (initMemStaging 3) { id := "dirA", path := "/d", createdAt := 0 } "a.txt"
        sampleInfo sampleStat [9, 9, 9, 9] "ck" sampleInfo sampleStat
      = (initMemStaging 3, some .stagingFull) ∧
    (fsStage (fsEmptyStaging 4) { id := "dirA", path := "/d", createdAt := 0 } "a.txt"
        sampleInfo sampleStat [9, 9, 9, 9] "ck" sampleInfo sampleStat).2 = none ∧
    fsStage (fsEmptyStaging 3) { id := "dirA", path := "/d", createdAt := 0 } "a.txt"
        sampleInfo sampleStat [9, 9, 9, 9] "ck" sampleInfo sampleStat
      = (fsEmptyStaging 3, some .stagingFull) :=
  ⟨(stage_budget_boundary (initMemStaging 4) (fsEmptyStaging 4)
      { id := "dirA", path := "/d", createdAt := 0 } "a.txt"
      sampleInfo sampleInfo sampleStat sampleStat [9, 9, 9, 9] "ck"
      (by decide)).1 (by decide) (by decide),
   (stage_budget_boundary (initMemStaging 3) (fsEmptyStaging 3)
      { id := "dirA", path := "/d", createdAt := 0 } "a.txt"
      sampleInfo sampleInfo sampleStat sampleStat [9, 9, 9, 9] "ck"
      (by decide)).2.1 (by decide) (by decide),
   (stage_budget_boundary (initMemStaging 4) (fsEmptyStaging 4)
      { id := "dirA", path := "/d", createdAt := 0 } "a.txt"
      sampleInfo sampleInfo sampleStat sampleStat [9, 9, 9, 9] "ck"
      (by decide)).2.2.2.1 (by decide) (by decide),
   (stage_budget_boundary (initMemStaging 3) (fsEmptyStaging 3)
      { id := "dirA", path := "/d", createdAt := 0 } "a.txt"
      sampleInfo sampleInfo sampleStat sampleStat [9, 9, 9, 9] "ck"
      (by decide)).2.2.2.2.1 (by decide) (by decide)⟩

/-- Assigning a key that is present rewrites the entries in place. -/
theorem mapSet_of_hasKey_true {α : Type} (m : List (String × α)) (k : String) (v : α)
    (h : mapHasKey m k = true) :
    mapSet m k v = m.map (fun p => if p.1 == k then (k, v) else p) := by
  unfold mapSet
  rw [h]
  rfl

/-- Two successive assignments of the same key amount to the last one. -/
theorem mapSet_mapSet {α : Type} (m : List (String × α)) (k : String) (a b : α) :
    mapSet (mapSet m k a) k b = mapSet m k b := by
  have hk1 : mapHasKey (mapSet m k a) k = true := by
    rw [mapHasKey_eq_isSome, mapGet_mapSet_self]
    rfl
  rw [mapSet_of_hasKey_true _ _ _ hk1]
  cases hk : mapHasKey m k with
  | true =>
      rw [mapSet_of_hasKey_true _ _ a hk, mapSet_of_hasKey_true _ _ b hk, List.map_map]
      refine List.map_congr_left ?_
      intro p _
      by_cases hp : (p.1 == k) = true
      · simp only [Function.comp_apply, hp, if_true, beq_self_eq_true]
      · rw [Bool.not_eq_true] at hp
        simp only [Function.comp_apply, hp, Bool.false_eq_true, if_false]
  | false =>
      rw [mapSet_eq_append _ _ a hk, mapSet_eq_append _ _ b hk, List.map_append]
      congr 1
      · have hid : ∀ p ∈ m, (fun p : String × α => if p.1 == k then (k, b) else p) p = p := by
          intro p hp
          show (if (p.1 == k) = true then ((k, b) : String × α) else p) = p
          rw [if_neg (by simp [not_key_of_hasKey_false m k hk p hp])]
        rw [List.map_congr_left hid]
        simp
      · simp

/-- C6: `putContent` is idempotent in both vault implementations. With an
accurate declared size, a first put succeeds, and an immediately repeated
put with the same checksum and bytes succeeds and leaves the stored
objects in exactly the same state. -/
theorem putContent_idempotent (v : MemVault) (contentDir : List (String × List Nat))
    (checksum : String) (data : List Nat) (size : Int)
    (hsize : (data.length : Int) = size) :
    (memPutContent v checksum data size).2 = none ∧
    memPutContent (memPutContent v checksum data size).1 checksum data size
      = ((memPutContent v checksum data size).1, none) ∧
    (fsvPutContent contentDir checksum data size).2 = none ∧
    fsvPutContent (fsvPutContent contentDir checksum data size).1 checksum data size
      = ((fsvPutContent contentDir checksum data size).1, none) := by
  have hbne : ((data.length : Int) != size) = false := by
    rw [bne_eq_false_iff_eq]
    exact hsize
  have hbne' : ¬ (((data.length : Int) != size) = true) := by
    rw [hbne]
    simp
  refine ⟨?_, ?_, ?_, ?_⟩
  · unfold memPutContent
    rw [if_neg hbne']
  · unfold memPutContent
    simp [hbne, mapSet_mapSet]
  · unfold fsvPutContent
    by_cases hk : mapHasKey contentDir checksum = true
    · simp [hk, hbne]
    · rw [Bool.not_eq_true] at hk
      simp [hk, hbne]
  · unfold fsvPutContent
    by_cases hk : mapHasKey contentDir checksum = true
    · simp [hk, hbne]
    · rw [Bool.not_eq_true] at hk
      have hk2 : mapHasKey (mapSet contentDir checksum data) checksum = true := by
        rw [mapHasKey_eq_isSome, mapGet_mapSet_self]
        rfl
      simp [hk, hk2, hbne]

/-- Witness for C6: the idempotence theorem at a concrete three-byte
object. -/
theorem putContent_idempotent_witness :
    (memPutContent { content := [], metadata := [], metadataVersion := [] }
        "abc" [1, 2, 3] 3).2 = none ∧
    memPutContent
        (memPutContent { content := [], metadata := [], metadataVersion := [] }
          "abc" [1, 2, 3] 3).1 "abc" [1, 2, 3] 3
      = ((memPutContent { content := [], metadata := [], metadataVersion := [] }
          "abc" [1, 2, 3] 3).1, none) ∧
    (fsvPutContent [] "abc" [1, 2, 3] 3).2 = none ∧
    fsvPutContent (fsvPutContent [] "abc" [1, 2, 3] 3).1 "abc" [1, 2, 3] 3
      = ((fsvPutContent [] "abc" [1, 2, 3] 3).1, none) :=
  putContent_idempotent { content := [], metadata := [], metadataVersion := [] } []
    "abc" [1, 2, 3] 3 (by decide)

/-- The fold computing `COALESCE(MAX(id), 0)` never drops below its seed. -/
theorem foldl_max_init_le (l : List Int) : ∀ acc : Int, acc ≤ l.foldl max acc := by
  induction l with
  | nil => intro acc; exact le_refl _
  | cons x t ih => intro acc; exact le_trans (le_max_left acc x) (ih (max acc x))

/-- C7: opening the operation envelope aborts with `LocalBehind` exactly
when the vault's stored `"db"` metadata version for the host exceeds the
local maximum backup-operation id; a host with no stored metadata reads
as version 0 and (the local maximum being at least the COALESCE seed 0)
the invocation proceeds. -/
theorem openEnvelope_localBehind_iff (v : MemVault) (hostId : String)
    (operationIds : List Int) :
    (openEnvelope v hostId operationIds = .error .localBehind ↔
      memGetMetadataVersion v hostId > maxBackupOperationId operationIds) ∧
    ((∀ p ∈ v.metadataVersion, p.1 ≠ hostId) →
      memGetMetadataVersion v hostId = 0 ∧
      openEnvelope v hostId operationIds = .ok ()) := by
  constructor
  · unfold openEnvelope envelopeVersionCheck
    by_cases h : memGetMetadataVersion v hostId > maxBackupOperationId operationIds
    · rw [if_pos h]
      exact ⟨fun _ => h, fun _ => rfl⟩
    · rw [if_neg h]
      exact ⟨fun hc => Except.noConfusion hc, fun hc => absurd hc h⟩
  · intro hmissing
    have h0 : memGetMetadataVersion v hostId = 0 := by
      unfold memGetMetadataVersion mapGet
      have : v.metadataVersion.find? (fun p => p.1 == hostId) = none := by
        rw [List.find?_eq_none]
        intro p hp
        simp only [beq_iff_eq]
        exact hmissing p hp
      rw [this]
      rfl
    refine ⟨h0, ?_⟩
    unfold openEnvelope envelopeVersionCheck
    rw [if_neg ?_]
    rw [h0]
    rw [not_lt]
    exact foldl_max_init_le operationIds 0

/-- Witness for C7: both directions at concrete data — a vault at
version 7 against a local maximum of 5 aborts (scenario S5), and a vault
with no metadata for the host proceeds. -/
theorem openEnvelope_localBehind_iff_witness :
    openEnvelope { content := [], metadata := [], metadataVersion := [("hostA", 7)] }
        "hostA" [5, 3] = .error .localBehind ∧
    openEnvelope { content := [], metadata := [], metadataVersion := [] }
        "hostA" [5, 3] = .ok () :=
  ⟨(openEnvelope_localBehind_iff
      { content := [], metadata := [], metadataVersion := [("hostA", 7)] }
      "hostA" [5, 3]).1.mpr (by decide),
   ((openEnvelope_localBehind_iff
      { content := [], metadata := [], metadataVersion := [] }
      "hostA" [5, 3]).2 (fun p hp => absurd hp (List.not_mem_nil p))).2⟩

/-- Deleting the key just assigned into a map that lacked it restores the
map. -/
theorem mapDelete_mapSet_fresh {α : Type} (m : List (String × α)) (k : String) (v : α)
    (h : mapHasKey m k = false) : mapDelete (mapSet m k v) k = m := by
  rw [mapSet_eq_append _ _ _ h]
  exact mapDelete_append_self _ _ _ h

/-- C8: a single-snapshot restore never overwrites and leaves no partial
output. If the computed path `{dir}/{basename}.{contentId[:12]}.btrestored`
already exists on disk, the call fails with `OutputExists` and the disk —
in particular the pre-existing file's bytes — is unchanged; and whenever
the call fails after creating the output file (missing content record,
missing decryption context, missing vault object, failed decrypt), the
created file is removed and the disk is exactly as before. -/
theorem restoreOneFile_no_overwrite_no_leftover
    (disk : List (String × List Nat)) (db : DBState) (vault : MemVault)
    (decryptCtx : Option (List Nat → Option (List Nat)))
    (dir : Directory) (relativePath : String) (snapshot : FileSnapshot) :
    (mapHasKey disk (buildRestorePath dir.path relativePath snapshot.contentId) = true →
      restoreOneFile disk db vault decryptCtx dir relativePath snapshot
        = (disk, some .outputExists)) ∧
    (mapHasKey disk (buildRestorePath dir.path relativePath snapshot.contentId) = false →
      ∀ e, (restoreOneFile disk db vault decryptCtx dir relativePath snapshot).2 = some e →
        (restoreOneFile disk db vault decryptCtx dir relativePath snapshot).1 = disk) := by
  constructor
  · intro h
    unfold restoreOneFile
    rw [if_pos h]
  · intro h e
    have hdel : mapDelete
        (mapSet disk (buildRestorePath dir.path relativePath snapshot.contentId) [])
        (buildRestorePath dir.path relativePath snapshot.contentId) = disk :=
      mapDelete_mapSet_fresh _ _ _ h
    unfold restoreOneFile
    rw [if_neg (by rw [h]; simp)]
    simp only []
    repeat' first
      | (exact fun _ => hdel)
      | (exact fun hc => absurd hc (by simp))
      | split

/-- Witness for C8: at concrete data the restore theorem gives both
halves — a pre-existing `/d/f.txt.c1.btrestored` makes the restore fail
with `OutputExists` and leaves the disk unchanged, and on an empty disk a
restore whose vault lacks the content fails while restoring the disk to
empty. -/
theorem restoreOneFile_no_overwrite_no_leftover_witness :
    restoreOneFile [("/d/f.txt.c1.btrestored", [9])]
        { directories := [], files := [],
          snapshots := [], contents := [{ id := "c1", createdAt := 0,
                                          encryptedContentId := none }] }
        { content := [], metadata := [], metadataVersion := [] } none
        { id := "dirX", path := "/d", createdAt := 0 } "f.txt"
        { sampleSnap with contentId := "c1" }
      = ([("/d/f.txt.c1.btrestored", [9])], some .outputExists) ∧
    (restoreOneFile []
        { directories := [], files := [],
          snapshots := [], contents := [{ id := "c1", createdAt := 0,
                                          encryptedContentId := none }] }
        { content := [], metadata := [], metadataVersion := [] } none
        { id := "dirX", path := "/d", createdAt := 0 } "f.txt"
        { sampleSnap with contentId := "c1" }).1 = [] :=
  ⟨(restoreOneFile_no_overwrite_no_leftover [("/d/f.txt.c1.btrestored", [9])]
      { directories := [], files := [],
        snapshots := [], contents := [{ id := "c1", createdAt := 0,
                                        encryptedContentId := none }] }
      { content := [], metadata := [], metadataVersion := [] } none
      { id := "dirX", path := "/d", createdAt := 0 } "f.txt"
      { sampleSnap with contentId := "c1" }).1 (by decide),
   (restoreOneFile_no_overwrite_no_leftover []
      { directories := [], files := [],
        snapshots := [], contents := [{ id := "c1", createdAt := 0,
                                        encryptedContentId := none }] }
      { content := [], metadata := [], metadataVersion := [] } none
      { id := "dirX", path := "/d", createdAt := 0 } "f.txt"
      { sampleSnap with contentId := "c1" }).2 (by decide) .vaultNotFound (by decide)⟩

end BT
